import Mathlib

/-!
Shallow embedding of the takum logarithmic codec from
`validate_takum.py` (configuration resolver, characteristic bias table,
regime selector, encoder, decoder), together with theorems settling the
frozen claims about it.

Modelling conventions:
* Python floats are modelled by `PyFloat`: NaN, signed infinity, or a
  finite real number.  `math.log` and `math.exp` become `Real.log` and
  `Real.exp`.
* Python's arbitrary-precision `int` is `ℤ`.  `x << n` on a Python int
  is exactly `x * 2 ^ n` (also for negative `x`), and is written that
  way.  `|` on Python ints is two's-complement bitwise or, which is
  exactly `Int.lor` (`|||`).
* Python `round` is round-half-to-even (`pyRound`); `int()` applied to
  a float truncates toward zero (`pyTrunc`).
* The decoder first normalises its input to the unsigned bit pattern
  `encoded_u` (non-negative for every in-width input, which is the
  decoder's documented domain); the subsequent `>>` and `&` steps are
  therefore carried out on `ℕ`.
* Each assignment of the Python encoder/decoder bodies becomes one
  definition (`enc_s`, `enc_l_float`, …, `dec_s`, `dec_d`, …) so that
  claims about intermediate quantities can be stated directly.
-/

set_option maxRecDepth 20000

namespace Takum

/-- A Python float as seen by the codec: NaN, an infinity (the `Bool`
is the sign), or a finite real value. -/
inductive PyFloat where
  | nan : PyFloat
  | inf : Bool → PyFloat
  | finite : ℝ → PyFloat

/-- Python `round` on a real: round half to even (banker's rounding). -/
noncomputable def pyRound (x : ℝ) : ℤ :=
  if Int.fract x = 1 / 2 then (if Even ⌊x⌋ then ⌊x⌋ else ⌊x⌋ + 1) else round x

/-- Python `int()` on a real: truncation toward zero. -/
noncomputable def pyTrunc (x : ℝ) : ℤ := if 0 ≤ x then ⌊x⌋ else ⌈x⌉

/-- `TakumConfig` dataclass: configuration for a specific takum bit
width (`validate_takum.py`, lines 41-48). -/
structure TakumConfig where
  bits : ℕ
  sign_bits : ℕ := 1
  direction_bits : ℕ := 1
  regime_bits : ℕ := 3

/-- Total overhead bits, sign + direction + regime (lines 50-53). -/
def TakumConfig.overhead_bits (c : TakumConfig) : ℕ :=
  c.sign_bits + c.direction_bits + c.regime_bits

/-- Maximum mantissa bits, at regime 0 (lines 55-58). -/
def TakumConfig.max_mantissa_bits (c : TakumConfig) : ℤ :=
  (c.bits : ℤ) - (c.overhead_bits : ℤ)

/-- Not a Real (NaR) bit pattern as a signed integer,
`-(1 << (bits - 1))` (lines 60-63). -/
def TakumConfig.nar_value (c : TakumConfig) : ℤ := -(2 ^ (c.bits - 1))

/-- The `one_value` property, `1 << (bits - 3)` (lines 65-70). -/
def TakumConfig.one_value (c : TakumConfig) : ℤ := 2 ^ (c.bits - 3)

/-- Pre-defined configuration for 8 bits (line 74). -/
def TAKUM8 : TakumConfig := { bits := 8 }

/-- Pre-defined configuration for 16 bits (line 75). -/
def TAKUM16 : TakumConfig := { bits := 16 }

/-- Pre-defined configuration for 32 bits (line 76). -/
def TAKUM32 : TakumConfig := { bits := 32 }

/-- Pre-defined configuration for 64 bits (line 77). -/
def TAKUM64 : TakumConfig := { bits := 64 }

/-- `SQRT_E = math.sqrt(math.e)` (line 87). -/
noncomputable def SQRT_E : ℝ := Real.sqrt (Real.exp 1)

/-- `c_bias(r) = 2^(r+1) - 1`, raising `ValueError` (modelled by
`none`) when `r ∉ [0, 7]` (lines 96-118). -/
def c_bias (r : ℤ) : Option ℤ :=
  if 0 ≤ r ∧ r ≤ 7 then some (2 ^ (r.toNat + 1) - 1) else none

/-- `C_BIAS_LUT = tuple(c_bias(r) for r in range(8))` (line 121). -/
def C_BIAS_LUT : List ℤ := (List.range 8).filterMap fun r => c_bias (r : ℤ)

/-- Indexing `C_BIAS_LUT[r]`.  The codec only ever indexes with
`r ∈ [0, 7]`, where the default of `getD` is never used. -/
def C_BIAS_LUT_get (r : ℕ) : ℤ := C_BIAS_LUT.getD r 0

/-- Helper for `bit_length`: repeated halving with explicit fuel (so
that the definition is structurally recursive and evaluates inside the
kernel); `fuel ≥ n` always suffices for input `n`. -/
def bit_length_aux : ℕ → ℕ → ℕ
  | 0, _ => 0
  | fuel + 1, n => if n = 0 then 0 else bit_length_aux fuel (n / 2) + 1

/-- Python `n.bit_length()`: the number of bits necessary to represent
`n` in binary, with `(0).bit_length() = 0`.  Proved equal to
`Nat.size` below. -/
def bit_length (n : ℕ) : ℕ := bit_length_aux n n

/-- `compute_regime(l_abs)`: `0` for `l_abs = 0`, otherwise
`min(7, (l_abs + 1).bit_length() - 1)` (lines 129-144). -/
def compute_regime (l_abs : ℕ) : ℕ :=
  if l_abs = 0 then 0 else min 7 (bit_length (l_abs + 1) - 1)

/-- Encoder step: `s = 0 if value > 0 else 1` (line 172). -/
noncomputable def enc_s (value : ℝ) : ℤ := if 0 < value then 0 else 1

/-- Encoder step: `l_float = 2.0 * math.log(abs_value)` (line 177). -/
noncomputable def enc_l_float (value : ℝ) : ℝ := 2 * Real.log |value|

/-- Encoder steps: `l = round(l_float)` then clamp,
`l = max(-255, min(255, l))` (lines 178-181). -/
noncomputable def enc_l (value : ℝ) : ℤ :=
  max (-255) (min 255 (pyRound (enc_l_float value)))

/-- Encoder step: `d = 1 if l >= 0 else 0` (line 184). -/
noncomputable def enc_d (value : ℝ) : ℤ := if 0 ≤ enc_l value then 1 else 0

/-- Encoder step: `r = compute_regime(abs(l))` (lines 187-188). -/
noncomputable def enc_r (value : ℝ) : ℕ := compute_regime (enc_l value).natAbs

/-- Encoder step 6 (lines 190-194): the characteristic computed from
the rounded-and-clamped integer logarithm `l`:
`c = l - C_BIAS_LUT[r] if r > 0 else 0` when `l >= 0`, and
`c = C_BIAS_LUT[r] - 1 - abs(l) if r > 0 else 0` when `l < 0`,
with `r = compute_regime(abs(l))`. -/
def characteristic (l : ℤ) : ℤ :=
  if 0 ≤ l then
    (if 0 < compute_regime l.natAbs then
      l - C_BIAS_LUT_get (compute_regime l.natAbs) else 0)
  else
    (if 0 < compute_regime l.natAbs then
      C_BIAS_LUT_get (compute_regime l.natAbs) - 1 - (l.natAbs : ℤ) else 0)

/-- Encoder step: the characteristic of the encoded value. -/
noncomputable def enc_c (value : ℝ) : ℤ := characteristic (enc_l value)

/-- Encoder step: `m_bits = bits - overhead_bits - r`, clamped up to 0
(lines 197-199); `Int.toNat` performs exactly that clamp. -/
noncomputable def enc_m_bits (value : ℝ) (config : TakumConfig) : ℕ :=
  ((config.bits : ℤ) - (config.overhead_bits : ℤ) - (enc_r value : ℤ)).toNat

/-- Encoder step: `l_frac = abs(l_float) - abs(l)` (line 202). -/
noncomputable def enc_l_frac (value : ℝ) : ℝ :=
  |enc_l_float value| - |((enc_l value : ℤ) : ℝ)|

/-- Encoder step: `m = int(l_frac * (1 << m_bits)) if m_bits > 0 else 0`
(line 203). -/
noncomputable def enc_m (value : ℝ) (config : TakumConfig) : ℤ :=
  if 0 < enc_m_bits value config then
    pyTrunc (enc_l_frac value * 2 ^ enc_m_bits value config) else 0

/-- Encoder assembly (lines 207-211): the unsigned bit pattern built by
the chain of `|=` statements; Python `x << n` is `x * 2 ^ n` and `|` is
two's-complement `Int.lor`. -/
noncomputable def enc_result_unsigned (value : ℝ) (config : TakumConfig) : ℤ :=
  Int.lor
    (Int.lor
      (Int.lor
        (Int.lor (enc_s value * 2 ^ (config.bits - 1))
          (enc_d value * 2 ^ (config.bits - 2)))
        ((enc_r value : ℤ) * 2 ^ (config.bits - 5)))
      (if 0 < enc_r value then enc_c value * 2 ^ enc_m_bits value config else 0))
    (enc_m value config)

/-- Encoder final conversion to a signed integer (lines 214-217):
`result -= 1 << bits` when `s == 1`. -/
noncomputable def enc_result (value : ℝ) (config : TakumConfig) : ℤ :=
  if enc_s value = 1 then enc_result_unsigned value config - 2 ^ config.bits
  else enc_result_unsigned value config

/-- `encode_takum_log` (lines 147-217): NaN and infinities map to the
NaR pattern, exact zero maps to 0, every other finite value goes
through the encoding pipeline.  The function never raises. -/
noncomputable def encode_takum_log (value : PyFloat) (config : TakumConfig) : ℤ :=
  match value with
  | .nan => config.nar_value
  | .inf _ => config.nar_value
  | .finite x => if x = 0 then 0 else enc_result x config

/-- Decoder step (lines 239-243): normalise to the unsigned bit
pattern of width `bits`.  For every in-width input the result is
non-negative, so the remaining bit manipulation happens on `ℕ`. -/
def dec_u (encoded : ℤ) (config : TakumConfig) : ℕ :=
  (if encoded < 0 then encoded + 2 ^ config.bits else encoded).toNat

/-- Decoder step: `s = (encoded_u >> (bits - 1)) & 1` (line 246). -/
def dec_s (encoded : ℤ) (config : TakumConfig) : ℕ :=
  (dec_u encoded config >>> (config.bits - 1)) &&& 1

/-- Decoder step: `d = (encoded_u >> (bits - 2)) & 1` (line 249). -/
def dec_d (encoded : ℤ) (config : TakumConfig) : ℕ :=
  (dec_u encoded config >>> (config.bits - 2)) &&& 1

/-- Decoder step: `r = (encoded_u >> (bits - 5)) & 0b111` (line 252). -/
def dec_r (encoded : ℤ) (config : TakumConfig) : ℕ :=
  (dec_u encoded config >>> (config.bits - 5)) &&& 7

/-- Decoder step: recompute `m_bits`, clamped up to 0 (lines 255-257). -/
def dec_m_bits (encoded : ℤ) (config : TakumConfig) : ℕ :=
  ((config.bits : ℤ) - (config.overhead_bits : ℤ) - (dec_r encoded config : ℤ)).toNat

/-- Decoder step: extract the characteristic,
`c = (encoded_u >> m_bits) & ((1 << r) - 1)` when `r > 0` (lines 260-263). -/
def dec_c (encoded : ℤ) (config : TakumConfig) : ℕ :=
  if 0 < dec_r encoded config then
    (dec_u encoded config >>> dec_m_bits encoded config) &&&
      (2 ^ dec_r encoded config - 1)
  else 0

/-- Decoder step: extract the mantissa,
`m = encoded_u & ((1 << m_bits) - 1)` when `m_bits > 0` (line 266). -/
def dec_m (encoded : ℤ) (config : TakumConfig) : ℕ :=
  if 0 < dec_m_bits encoded config then
    dec_u encoded config &&& (2 ^ dec_m_bits encoded config - 1)
  else 0

/-- Decoder step (lines 269-273): reconstruct the integer logarithm
`l` from direction, regime and characteristic. -/
def dec_l (encoded : ℤ) (config : TakumConfig) : ℤ :=
  if dec_d encoded config = 1 then
    (if 0 < dec_r encoded config then
      C_BIAS_LUT_get (dec_r encoded config) + (dec_c encoded config : ℤ) else 0)
  else
    -((if 0 < dec_r encoded config then
      C_BIAS_LUT_get (dec_r encoded config) - 1 - (dec_c encoded config : ℤ)
      else 0) + 1)

/-- Decoder step: `l_float = l + (m / (1 << m_bits) if m_bits > 0 else 0)`
(line 276). -/
noncomputable def dec_l_float (encoded : ℤ) (config : TakumConfig) : ℝ :=
  (dec_l encoded config : ℝ) +
    (if 0 < dec_m_bits encoded config then
      (dec_m encoded config : ℝ) / 2 ^ dec_m_bits encoded config else 0)

/-- Decoder step: `abs_value = math.exp(l_float / 2.0)` (line 279). -/
noncomputable def dec_abs_value (encoded : ℤ) (config : TakumConfig) : ℝ :=
  Real.exp (dec_l_float encoded config / 2)

/-- `decode_takum_log` (lines 220-281): the NaR pattern maps to the NaN
sentinel, 0 maps to exactly 0.0, everything else is reconstructed from
the extracted fields.  The function never raises. -/
noncomputable def decode_takum_log (encoded : ℤ) (config : TakumConfig) : PyFloat :=
  if encoded = config.nar_value then .nan
  else if encoded = 0 then .finite 0
  else .finite (if dec_s encoded config = 1 then -(dec_abs_value encoded config)
    else dec_abs_value encoded config)

/-- `TEST_ENCODINGS` (lines 289-296): the known correct encodings
declared by the source for validation, as
(value, expected takum16, bits) triples. -/
noncomputable def TEST_ENCODINGS : List (PyFloat × ℤ × ℕ) :=
  [(.finite 1, 0x2000, 16),
   (.finite (-1), -0x2000, 16),
   (.finite 0, 0x0000, 16),
   (.finite (Real.exp 1), 0x4000, 16),
   (.finite SQRT_E, 0x2800, 16)]

/-! ### Helper lemmas -/

theorem bit_length_aux_eq_size (fuel n : ℕ) (h : n ≤ fuel) :
    bit_length_aux fuel n = Nat.size n := by
  induction fuel generalizing n with
  | zero =>
    have hn : n = 0 := by omega
    simp [bit_length_aux, hn, Nat.size_zero]
  | succ fuel ih =>
    rw [bit_length_aux]
    by_cases hn : n = 0
    · simp [hn, Nat.size_zero]
    · rw [if_neg hn, ih (n / 2) (by omega)]
      have h1 : n / 2 < 2 ^ Nat.size (n / 2) := Nat.lt_size_self _
      have h2 : Nat.size n ≤ Nat.size (n / 2) + 1 := by
        rw [Nat.size_le, pow_succ, mul_comm]
        omega
      have h3 : Nat.size (n / 2) + 1 ≤ Nat.size n := by
        rw [Nat.succ_le_iff, Nat.lt_size]
        by_cases hd : n / 2 = 0
        · simpa [hd, Nat.size_zero] using Nat.one_le_iff_ne_zero.mpr hn
        · have hp : 0 < Nat.size (n / 2) := Nat.size_pos.mpr (by omega)
          have h4 : 2 ^ (Nat.size (n / 2) - 1) ≤ n / 2 := by
            rw [← Nat.lt_size]
            omega
          calc 2 ^ Nat.size (n / 2) = 2 * 2 ^ (Nat.size (n / 2) - 1) := by
                rw [← pow_succ']
                congr 1
                omega
            _ ≤ 2 * (n / 2) := by omega
            _ ≤ n := by omega
      omega

theorem bit_length_eq_size (n : ℕ) : bit_length n = Nat.size n :=
  bit_length_aux_eq_size n n le_rfl

theorem size_eq_log_succ {m : ℕ} (hm : m ≠ 0) :
    Nat.size m = Nat.log 2 m + 1 := by
  have hp : 0 < Nat.size m := Nat.size_pos.mpr (by omega)
  have h1 : 2 ^ (Nat.size m - 1) ≤ m := by
    rw [← Nat.lt_size]
    omega
  have h2 : m < 2 ^ (Nat.size m - 1 + 1) := by
    have := Nat.lt_size_self m
    have he : Nat.size m - 1 + 1 = Nat.size m := by omega
    rw [he]
    exact this
  have := Nat.log_eq_of_pow_le_of_lt_pow h1 h2
  omega

theorem pyRound_intCast (k : ℤ) : pyRound (k : ℝ) = k := by
  rw [pyRound, Int.fract_intCast, if_neg (by norm_num), round_intCast]

theorem pyTrunc_zero : pyTrunc 0 = 0 := by
  rw [pyTrunc, if_pos le_rfl, Int.floor_zero]

theorem enc_l_eq_of_l_float {x : ℝ} {k : ℤ} (h : enc_l_float x = (k : ℝ))
    (h1 : -255 ≤ k) (h2 : k ≤ 255) : enc_l x = k := by
  rw [enc_l, h, pyRound_intCast]
  omega

theorem enc_l_frac_eq_zero {x : ℝ} {k : ℤ} (hl : enc_l x = k)
    (h : enc_l_float x = (k : ℝ)) : enc_l_frac x = 0 := by
  rw [enc_l_frac, h, hl, sub_self]

theorem enc_m_eq_zero {x : ℝ} (cfg : TakumConfig) (hf : enc_l_frac x = 0) :
    enc_m x cfg = 0 := by
  rw [enc_m]
  split
  · rw [hf, zero_mul, pyTrunc_zero]
  · rfl

theorem int_natCast_lor (a b : ℕ) : Int.lor (a : ℤ) (b : ℤ) = ((a ||| b : ℕ) : ℤ) := rfl

theorem int_lor_negSucc (a b : ℕ) :
    Int.lor (a : ℤ) (Int.negSucc b) = Int.negSucc (Nat.ldiff b a) := rfl

theorem int_negSucc_lor (a b : ℕ) :
    Int.lor (Int.negSucc a) (b : ℤ) = Int.negSucc (Nat.ldiff a b) := rfl

theorem ldiff_of_disjoint {a b : ℕ} (h : a &&& b = 0) : Nat.ldiff a b = a := by
  apply Nat.eq_of_testBit_eq
  intro i
  rw [Nat.testBit_ldiff]
  cases hb : b.testBit i
  · simp
  · have h2 := congrArg (fun x => Nat.testBit x i) h
    simp only [Nat.testBit_land, hb, Bool.and_true, Nat.zero_testBit] at h2
    simp [h2]

theorem int_lor_negSucc_of_disjoint {a b : ℕ} (h : b &&& a = 0) :
    Int.lor (a : ℤ) (Int.negSucc b) = Int.negSucc b := by
  rw [int_lor_negSucc, ldiff_of_disjoint h]

theorem int_negSucc_lor_of_disjoint {a b : ℕ} (h : a &&& b = 0) :
    Int.lor (Int.negSucc a) (b : ℤ) = Int.negSucc a := by
  rw [int_negSucc_lor, ldiff_of_disjoint h]

theorem int_lor_zero (a : ℤ) : Int.lor a 0 = a := by
  cases a with
  | ofNat m =>
    show ((m ||| 0 : ℕ) : ℤ) = (m : ℤ)
    rw [Nat.or_zero]
  | negSucc m =>
    show Int.negSucc (Nat.ldiff m 0) = Int.negSucc m
    rw [ldiff_of_disjoint (Nat.and_zero m)]

theorem compute_regime_le_seven (l_abs : ℕ) : compute_regime l_abs ≤ 7 := by
  rw [compute_regime]
  split
  · omega
  · exact min_le_left _ _

theorem char_pos_ball :
    ∀ n : ℕ, n < 256 → (0 ≤ characteristic (n : ℤ) ↔ n = 0 ∨ n = 255) := by
  decide

theorem char_neg_ball :
    ∀ n : ℕ, n < 256 →
      (0 ≤ characteristic (-(n : ℤ)) ↔ (1 ≤ n ∧ n ≤ 254) ∨ n = 0) := by
  decide

theorem bias_lut_ball :
    ∀ r : ℕ, r < 8 → C_BIAS_LUT_get r = 2 ^ (r + 1) - 1 := by
  decide

/-! ### Claim theorems -/

/-- C5: for every bit-width configuration (in particular the supported
widths 8, 16, 32 and 64), the encoder maps NaN, +infinity and
-infinity to the NaR pattern (the most negative signed value of that
width), and the decoder maps the NaR pattern back to the NaN sentinel.
Both operations are total Lean functions on these inputs, i.e. special
values are in-band sentinels and no error is raised. -/
theorem special_values_in_band (config : TakumConfig) :
    encode_takum_log .nan config = config.nar_value ∧
    encode_takum_log (.inf true) config = config.nar_value ∧
    encode_takum_log (.inf false) config = config.nar_value ∧
    decode_takum_log config.nar_value config = .nan := by
  refine ⟨rfl, rfl, rfl, ?_⟩
  rw [decode_takum_log, if_pos rfl]

/-- C6: for every bit-width configuration (in particular the supported
widths 8, 16, 32 and 64), `encode(0.0) = 0` and
`decode(encode(0.0)) = 0.0` exactly. -/
theorem zero_fixpoint (config : TakumConfig) :
    encode_takum_log (.finite 0) config = 0 ∧
    decode_takum_log (encode_takum_log (.finite 0) config) config = .finite 0 := by
  have henc : encode_takum_log (.finite 0) config = 0 := by
    simp [encode_takum_log]
  have hpow : (0 : ℤ) < 2 ^ (config.bits - 1) := pow_pos (by norm_num) _
  have hne : (0 : ℤ) ≠ config.nar_value := by
    rw [TakumConfig.nar_value]
    omega
  refine ⟨henc, ?_⟩
  rw [henc, decode_takum_log, if_neg hne, if_pos rfl]

/-- C7: `c_bias(r)` returns `2 ^ (r + 1) - 1` for every `r ∈ [0, 7]`
(so `c_bias(0) = 1`, `c_bias(3) = 15`, `c_bias(7) = 255`), and fails
with the out-of-range `ValueError` (modelled by `none`) exactly when
`r` lies outside `[0, 7]`. -/
theorem c_bias_spec (r : ℤ) :
    ((0 ≤ r ∧ r ≤ 7) → c_bias r = some (2 ^ (r.toNat + 1) - 1)) ∧
    (c_bias r = none ↔ ¬(0 ≤ r ∧ r ≤ 7)) ∧
    c_bias 0 = some 1 ∧ c_bias 3 = some 15 ∧ c_bias 7 = some 255 := by
  refine ⟨fun h => by rw [c_bias, if_pos h], ?_, by decide, by decide, by decide⟩
  by_cases h : 0 ≤ r ∧ r ≤ 7
  · simp [c_bias, h]
  · simp [c_bias, h]

/-- Witness for C7 at the concrete regime `r = 3`. -/
theorem c_bias_spec_witness :
    (0 ≤ (3 : ℤ) ∧ (3 : ℤ) ≤ 7) ∧ c_bias 3 = some 15 :=
  ⟨⟨by decide, by decide⟩,
    ((c_bias_spec 3).1 ⟨by decide, by decide⟩).trans (by decide)⟩

/-- C8: `compute_regime` returns `0` on `l_abs = 0` and
`min(7, floor(log2(l_abs + 1)))` otherwise, so its result always lies
in `[0, 7]`; moreover the regime the decoder extracts from a bit
pattern also always lies in `[0, 7]`, so an out-of-range index into the
bias table (`OutOfRangeRegime`) is unreachable in both the encoder and
the decoder. -/
theorem compute_regime_spec :
    (∀ l_abs : ℕ,
      compute_regime l_abs =
        (if l_abs = 0 then 0 else min 7 (Nat.log 2 (l_abs + 1))) ∧
      compute_regime l_abs ≤ 7) ∧
    (∀ (encoded : ℤ) (config : TakumConfig), dec_r encoded config ≤ 7) := by
  constructor
  · intro la
    refine ⟨?_, compute_regime_le_seven la⟩
    rw [compute_regime]
    by_cases h : la = 0
    · simp [h]
    · rw [if_neg h, if_neg h, bit_length_eq_size,
        size_eq_log_succ (Nat.succ_ne_zero la)]
      simp
  · intro encoded config
    rw [dec_r]
    exact Nat.and_le_right

/-- C3 counterexample: the rounded-and-clamped logarithm `l = 2` lies
in `[-255, 255]`, yet the characteristic of encoder step 6 is
`2 - c_bias(1) = -1 < 0`, refuting the claim that the characteristic
is always non-negative. -/
theorem characteristic_of_two_negative :
    -255 ≤ (2 : ℤ) ∧ (2 : ℤ) ≤ 255 ∧ characteristic 2 < 0 := by
  decide

/-- C3 (amended): for every rounded-and-clamped integer logarithm
`l ∈ [-255, 255]`, the characteristic of encoder step 6 is
non-negative exactly when `l = 0`, `l = 255` (the positive clamp
boundary), or `-254 ≤ l ≤ -1`; in particular it is negative for every
`l ∈ [1, 254]` and at the negative clamp boundary `l = -255`. -/
theorem characteristic_sign (l : ℤ) (h1 : -255 ≤ l) (h2 : l ≤ 255) :
    0 ≤ characteristic l ↔ (l = 0 ∨ l = 255 ∨ (-254 ≤ l ∧ l ≤ -1)) := by
  rcases le_or_lt 0 l with hl | hl
  · obtain ⟨n, rfl⟩ : ∃ n : ℕ, l = (n : ℤ) :=
      ⟨l.toNat, (Int.toNat_of_nonneg hl).symm⟩
    rw [char_pos_ball n (by omega)]
    omega
  · obtain ⟨n, rfl⟩ : ∃ n : ℕ, l = -(n : ℤ) := ⟨(-l).toNat, by omega⟩
    rw [char_neg_ball n (by omega)]
    omega

/-- Witness for C3 (amended) at the concrete logarithm `l = -3`. -/
theorem characteristic_sign_witness :
    0 ≤ characteristic (-3) ↔
      ((-3 : ℤ) = 0 ∨ (-3 : ℤ) = 255 ∨ (-254 ≤ (-3 : ℤ) ∧ (-3 : ℤ) ≤ -1)) :=
  characteristic_sign (-3) (by decide) (by decide)

/-- C1: the source's own `TEST_ENCODINGS` table declares
`encode(1.0) = 0x2000` at bit width 16, but the encoder actually
produces `0x4000` (sign 0, direction 1 at bit 14, all other fields 0),
contradicting the table: the code disagrees with its own validation
data. -/
theorem encode_one_contradicts_test_vector :
    (PyFloat.finite 1, (0x2000 : ℤ), (16 : ℕ)) ∈ TEST_ENCODINGS ∧
    encode_takum_log (.finite 1) TAKUM16 = 0x4000 ∧
    (0x4000 : ℤ) ≠ 0x2000 := by
  refine ⟨List.mem_cons_self _ _, ?_, by decide⟩
  have h0 : (1 : ℝ) ≠ 0 := one_ne_zero
  have hs : enc_s 1 = 0 := by rw [enc_s, if_pos one_pos]
  have hlf : enc_l_float 1 = ((0 : ℤ) : ℝ) := by
    rw [enc_l_float, abs_one, Real.log_one]
    norm_num
  have hl : enc_l 1 = 0 := enc_l_eq_of_l_float hlf (by decide) (by decide)
  have hd : enc_d 1 = 1 := by rw [enc_d, hl]; decide
  have hr : enc_r 1 = 0 := by rw [enc_r, hl]; decide
  have hmb : enc_m_bits 1 TAKUM16 = 11 := by rw [enc_m_bits, hr]; decide
  have hfr : enc_l_frac 1 = 0 := enc_l_frac_eq_zero hl hlf
  have hm : enc_m 1 TAKUM16 = 0 := enc_m_eq_zero _ hfr
  rw [encode_takum_log, if_neg h0, enc_result, hs, if_neg (by decide),
    enc_result_unsigned, hs, hd, hr, hm]
  decide

/-- C4: decode is not the structural inverse of encode's bit assembly.
At bit width 16 the finite non-zero input `e` is packed with sign bit
`s = 0`, but its characteristic `-1` is bitwise-ored into the pattern
as a negative two's-complement integer, yielding the encoding `-1024`
(which is neither 0 nor the NaR pattern); the decoder's
field-extraction step then recovers the sign bit `s = 1`, not the
`s = 0` that the encoder packed. -/
theorem decode_extraction_mismatch_on_e :
    enc_s (Real.exp 1) = 0 ∧
    encode_takum_log (.finite (Real.exp 1)) TAKUM16 = -1024 ∧
    (-1024 : ℤ) ≠ TAKUM16.nar_value ∧ (-1024 : ℤ) ≠ 0 ∧
    dec_s (-1024) TAKUM16 = 1 := by
  have h0 : Real.exp 1 ≠ 0 := (Real.exp_pos 1).ne.symm
  have hs : enc_s (Real.exp 1) = 0 := by rw [enc_s, if_pos (Real.exp_pos 1)]
  have hlf : enc_l_float (Real.exp 1) = ((2 : ℤ) : ℝ) := by
    rw [enc_l_float, Real.abs_exp, Real.log_exp]
    norm_num
  have hl : enc_l (Real.exp 1) = 2 := enc_l_eq_of_l_float hlf (by decide) (by decide)
  have hd : enc_d (Real.exp 1) = 1 := by rw [enc_d, hl]; decide
  have hr : enc_r (Real.exp 1) = 1 := by rw [enc_r, hl]; decide
  have hc : enc_c (Real.exp 1) = -1 := by rw [enc_c, hl]; decide
  have hmb : enc_m_bits (Real.exp 1) TAKUM16 = 10 := by rw [enc_m_bits, hr]; decide
  have hfr : enc_l_frac (Real.exp 1) = 0 := enc_l_frac_eq_zero hl hlf
  have hm : enc_m (Real.exp 1) TAKUM16 = 0 := enc_m_eq_zero _ hfr
  refine ⟨hs, ?_, by decide, by decide, by decide⟩
  rw [encode_takum_log, if_neg h0, enc_result, hs, if_neg (by decide),
    enc_result_unsigned, hs, hd, hr, hc, hmb, hm, if_pos (by decide : 0 < 1)]
  have hpre : Int.lor
      (Int.lor ((0 : ℤ) * 2 ^ (TAKUM16.bits - 1)) (1 * 2 ^ (TAKUM16.bits - 2)))
      (((1 : ℕ) : ℤ) * 2 ^ (TAKUM16.bits - 5)) = ((18432 : ℕ) : ℤ) := by decide
  rw [hpre, show ((-1 : ℤ) * 2 ^ 10) = Int.negSucc 1023 from by decide,
    int_lor_negSucc_of_disjoint (by decide : 1023 &&& 18432 = 0),
    int_lor_zero]
  decide

/-- C2: the encoder's result is not always a valid signed integer of
the configured width.  For the finite input `-e` at bit width 16 the
negative characteristic `-1` is bitwise-ored into the pattern, the
unsigned pattern comes out negative (`-1024`), and the final sign
conversion subtracts `2^16` again, producing `-66560`, which lies
strictly below the most negative 16-bit value `-32768`. -/
theorem encode_width_overflow_on_neg_e :
    encode_takum_log (.finite (-(Real.exp 1))) TAKUM16 = -66560 ∧
    encode_takum_log (.finite (-(Real.exp 1))) TAKUM16 < TAKUM16.nar_value := by
  have hlt : -(Real.exp 1) < 0 := neg_neg_of_pos (Real.exp_pos 1)
  have h0 : -(Real.exp 1) ≠ 0 := hlt.ne
  have hs : enc_s (-(Real.exp 1)) = 1 := by rw [enc_s, if_neg (by linarith)]
  have hlf : enc_l_float (-(Real.exp 1)) = ((2 : ℤ) : ℝ) := by
    rw [enc_l_float, abs_neg, Real.abs_exp, Real.log_exp]
    norm_num
  have hl : enc_l (-(Real.exp 1)) = 2 :=
    enc_l_eq_of_l_float hlf (by decide) (by decide)
  have hd : enc_d (-(Real.exp 1)) = 1 := by rw [enc_d, hl]; decide
  have hr : enc_r (-(Real.exp 1)) = 1 := by rw [enc_r, hl]; decide
  have hc : enc_c (-(Real.exp 1)) = -1 := by rw [enc_c, hl]; decide
  have hmb : enc_m_bits (-(Real.exp 1)) TAKUM16 = 10 := by
    rw [enc_m_bits, hr]; decide
  have hfr : enc_l_frac (-(Real.exp 1)) = 0 := enc_l_frac_eq_zero hl hlf
  have hm : enc_m (-(Real.exp 1)) TAKUM16 = 0 := enc_m_eq_zero _ hfr
  have henc : encode_takum_log (.finite (-(Real.exp 1))) TAKUM16 = -66560 := by
    rw [encode_takum_log, if_neg h0, enc_result, hs, if_pos rfl,
      enc_result_unsigned, hs, hd, hr, hc, hmb, hm, if_pos (by decide : 0 < 1)]
    have hpre : Int.lor
        (Int.lor ((1 : ℤ) * 2 ^ (TAKUM16.bits - 1)) (1 * 2 ^ (TAKUM16.bits - 2)))
        (((1 : ℕ) : ℤ) * 2 ^ (TAKUM16.bits - 5)) = ((51200 : ℕ) : ℤ) := by decide
    rw [hpre, show ((-1 : ℤ) * 2 ^ 10) = Int.negSucc 1023 from by decide,
      int_lor_negSucc_of_disjoint (by decide : 1023 &&& 51200 = 0),
      int_lor_zero]
    decide
  exact ⟨henc, by rw [henc]; decide⟩

/-- C9 counterexample: at bit width 8 the encoder does produce regime
values above 3 — the input `e^8` has rounded logarithm `l = 16`, hence
regime `r = 4` — and there `m_bits` is clamped to 0, so
`1 + 1 + 3 + r + m_bits = 9 ≠ 8`: the field-width identity fails on a
regime actually produced by the encoder at width 8. -/
theorem field_width_identity_fails_takum8 :
    enc_r (Real.exp 8) = 4 ∧
    1 + 1 + 3 + enc_r (Real.exp 8) + enc_m_bits (Real.exp 8) TAKUM8 ≠
      TAKUM8.bits := by
  have hlf : enc_l_float (Real.exp 8) = ((16 : ℤ) : ℝ) := by
    rw [enc_l_float, Real.abs_exp, Real.log_exp]
    norm_num
  have hl : enc_l (Real.exp 8) = 16 :=
    enc_l_eq_of_l_float hlf (by decide) (by decide)
  have hr : enc_r (Real.exp 8) = 4 := by rw [enc_r, hl]; decide
  have hmb : enc_m_bits (Real.exp 8) TAKUM8 = 0 := by rw [enc_m_bits, hr]; decide
  refine ⟨hr, ?_⟩
  rw [hr, hmb]
  decide

/-- C9 (amended): the field-width identity
`1 + 1 + 3 + r + m_bits = bits` (with `m_bits = max(0, bits - 5 - r)`)
holds for every regime the encoder can produce at the widths 16, 32
and 64, and at width 8 it holds exactly for the regimes `r ≤ 3`; for
width 8 with `r ≥ 4` (which the encoder does produce) it fails, `m_bits`
being clamped at 0. -/
theorem field_width_identity (config : TakumConfig) (x : ℝ)
    (h : config = TAKUM16 ∨ config = TAKUM32 ∨ config = TAKUM64 ∨
      (config = TAKUM8 ∧ enc_r x ≤ 3)) :
    1 + 1 + 3 + enc_r x + enc_m_bits x config = config.bits := by
  have hr : enc_r x ≤ 7 := by rw [enc_r]; exact compute_regime_le_seven _
  rw [enc_m_bits]
  rcases h with h | h | h | ⟨h, h3⟩ <;> subst h
  · have e1 : (TAKUM16.bits : ℤ) = 16 := by decide
    have e2 : (TAKUM16.overhead_bits : ℤ) = 5 := by decide
    have e3 : TAKUM16.bits = 16 := by decide
    rw [e1, e2, e3]
    omega
  · have e1 : (TAKUM32.bits : ℤ) = 32 := by decide
    have e2 : (TAKUM32.overhead_bits : ℤ) = 5 := by decide
    have e3 : TAKUM32.bits = 32 := by decide
    rw [e1, e2, e3]
    omega
  · have e1 : (TAKUM64.bits : ℤ) = 64 := by decide
    have e2 : (TAKUM64.overhead_bits : ℤ) = 5 := by decide
    have e3 : TAKUM64.bits = 64 := by decide
    rw [e1, e2, e3]
    omega
  · have e1 : (TAKUM8.bits : ℤ) = 8 := by decide
    have e2 : (TAKUM8.overhead_bits : ℤ) = 5 := by decide
    have e3 : TAKUM8.bits = 8 := by decide
    rw [e1, e2, e3]
    omega

/-- Witness for C9 (amended) at width 16 and input 1. -/
theorem field_width_identity_witness :
    1 + 1 + 3 + enc_r 1 + enc_m_bits 1 TAKUM16 = TAKUM16.bits :=
  field_width_identity TAKUM16 1 (Or.inl rfl)

/-- C10: for every supported bit width and every signed integer
representable in exactly that width, decode terminates without raising
(it is a total Lean function), returns the NaN sentinel exactly for
the NaR pattern, exactly 0.0 for the input 0, never an infinity, and
for every other pattern a non-zero finite real whose magnitude is at
most `exp 192`: the reconstructed logarithm is bounded by 383, so the
final exponentiation stays far below the IEEE-double overflow
threshold (about `exp 709`) and cannot overflow. -/
theorem decode_total_never_infinite (config : TakumConfig)
    (hc : config = TAKUM8 ∨ config = TAKUM16 ∨ config = TAKUM32 ∨
      config = TAKUM64)
    (encoded : ℤ) (h1 : config.nar_value ≤ encoded)
    (h2 : encoded < 2 ^ (config.bits - 1)) :
    (decode_takum_log encoded config = .nan ↔ encoded = config.nar_value) ∧
    (decode_takum_log encoded config = .finite 0 ↔ encoded = 0) ∧
    (∀ b : Bool, decode_takum_log encoded config ≠ .inf b) ∧
    (encoded ≠ config.nar_value → encoded ≠ 0 →
      ∃ y : ℝ, decode_takum_log encoded config = .finite y ∧ y ≠ 0 ∧
        |y| ≤ Real.exp 192) := by
  by_cases hn : encoded = config.nar_value
  · rw [decode_takum_log, if_pos hn]
    have hnz : encoded ≠ 0 := by
      rw [hn, TakumConfig.nar_value]
      have := pow_pos (by norm_num : (0 : ℤ) < 2) (config.bits - 1)
      omega
    refine ⟨by simp [hn], ?_, by simp, fun h _ => absurd hn h⟩
    constructor
    · intro h
      exact absurd h (by simp)
    · intro h
      exact absurd h hnz
  · by_cases hz : encoded = 0
    · rw [decode_takum_log, if_neg hn, if_pos hz]
      refine ⟨?_, by simp [hz], by simp, fun _ h => absurd hz h⟩
      constructor
      · intro h
        exact absurd h (by simp)
      · intro h
        exact absurd h hn
    · have hr7 : dec_r encoded config ≤ 7 := by
        rw [dec_r]
        exact Nat.and_le_right
      have hbias : C_BIAS_LUT_get (dec_r encoded config) =
          2 ^ (dec_r encoded config + 1) - 1 := bias_lut_ball _ (by omega)
      have h2rpos : 0 < 2 ^ dec_r encoded config := Nat.two_pow_pos _
      have hc_nat : dec_c encoded config ≤ 2 ^ dec_r encoded config - 1 := by
        rw [dec_c]
        split
        · exact Nat.and_le_right
        · omega
      have hX1 : (1 : ℤ) ≤ 2 ^ dec_r encoded config := by
        have : (1 : ℕ) ≤ 2 ^ dec_r encoded config := h2rpos
        exact_mod_cast this
      have hX2 : (2 : ℤ) ^ dec_r encoded config ≤ 128 := by
        calc (2 : ℤ) ^ dec_r encoded config ≤ 2 ^ 7 :=
              pow_le_pow_right₀ (by norm_num) hr7
          _ = 128 := by norm_num
      have hcz : (dec_c encoded config : ℤ) ≤ 2 ^ dec_r encoded config - 1 := by
        have h3 : dec_c encoded config + 1 ≤ 2 ^ dec_r encoded config := by omega
        have h4 : ((dec_c encoded config : ℕ) : ℤ) + 1 ≤
            ((2 ^ dec_r encoded config : ℕ) : ℤ) := by exact_mod_cast h3
        push_cast at h4
        omega
      have hc0 : (0 : ℤ) ≤ (dec_c encoded config : ℤ) := Int.natCast_nonneg _
      have hl_le : dec_l encoded config ≤ 382 := by
        rw [dec_l]
        split
        · split
          · rw [hbias, pow_succ]
            linarith
          · norm_num
        · split
          · rw [hbias, pow_succ]
            linarith
          · norm_num
      have h2mpos : 0 < 2 ^ dec_m_bits encoded config := Nat.two_pow_pos _
      have hm_le : dec_m encoded config ≤ 2 ^ dec_m_bits encoded config - 1 := by
        rw [dec_m]
        split
        · exact Nat.and_le_right
        · omega
      have hfrac : (if 0 < dec_m_bits encoded config then
          ((dec_m encoded config : ℕ) : ℝ) / 2 ^ dec_m_bits encoded config
          else 0) ≤ 1 := by
        split
        · apply div_le_one_of_le₀
          · have h3 : dec_m encoded config ≤ 2 ^ dec_m_bits encoded config := by
              omega
            have h4 : ((dec_m encoded config : ℕ) : ℝ) ≤
                ((2 ^ dec_m_bits encoded config : ℕ) : ℝ) := by exact_mod_cast h3
            push_cast at h4
            exact h4
          · positivity
        · norm_num
      have hlf2 : dec_l_float encoded config ≤ 383 := by
        rw [dec_l_float]
        have hcast : ((dec_l encoded config : ℤ) : ℝ) ≤ 382 := by
          exact_mod_cast hl_le
        linarith [hfrac]
      have hpos : 0 < dec_abs_value encoded config := Real.exp_pos _
      have habs : dec_abs_value encoded config ≤ Real.exp 192 := by
        rw [dec_abs_value, Real.exp_le_exp]
        linarith
      rw [decode_takum_log, if_neg hn, if_neg hz]
      set y0 := if dec_s encoded config = 1 then
        -(dec_abs_value encoded config) else dec_abs_value encoded config
        with hy0
      have hy0ne : y0 ≠ 0 := by
        rw [hy0]
        split
        · exact neg_ne_zero.mpr hpos.ne.symm
        · exact hpos.ne.symm
      have hy0abs : |y0| ≤ Real.exp 192 := by
        rw [hy0]
        split
        · rw [abs_neg, abs_of_pos hpos]
          exact habs
        · rw [abs_of_pos hpos]
          exact habs
      refine ⟨?_, ?_, by simp, fun _ _ => ⟨y0, rfl, hy0ne, hy0abs⟩⟩
      · constructor
        · intro h
          exact absurd h (by simp)
        · intro h
          exact absurd h hn
      · constructor
        · intro h
          simp only [PyFloat.finite.injEq] at h
          exact absurd h hy0ne
        · intro h
          exact absurd h hz

/-- Witness for C10 at width 16 and the in-range bit pattern 5. -/
theorem decode_total_never_infinite_witness :
    (decode_takum_log 5 TAKUM16 = .nan ↔ (5 : ℤ) = TAKUM16.nar_value) ∧
    (decode_takum_log 5 TAKUM16 = .finite 0 ↔ (5 : ℤ) = 0) ∧
    (∀ b : Bool, decode_takum_log 5 TAKUM16 ≠ .inf b) ∧
    ((5 : ℤ) ≠ TAKUM16.nar_value → (5 : ℤ) ≠ 0 →
      ∃ y : ℝ, decode_takum_log 5 TAKUM16 = .finite y ∧ y ≠ 0 ∧
        |y| ≤ Real.exp 192) :=
  decode_total_never_infinite TAKUM16 (Or.inr (Or.inl rfl)) 5
    (by decide) (by decide)

end Takum
